import Mathlib

/-!
Verification of the `serde_duration` crate: a pair of functions converting
between whole-second durations and compact strings such as "10s", "5m", "3h".

Strings are modelled as lists of characters.  Rust's `u64` is modelled as
`Nat` together with explicit `% 2 ^ 64` at the one place overflow can occur
(the unchecked multiplication `multiplier.as_secs() * value` in
`str_to_duration`, which wraps in release builds).  Byte slicing
`&s[..s.len() - 1]` is modelled by an explicit partial operation over UTF-8
byte offsets whose `none` result stands for the slicing panic branch, so that
its unreachability can be proved rather than assumed.
-/

namespace SerdeDuration

/-- The number of values of Rust's `u64` type: `2 ^ 64`. -/
def u64Size : Nat := 2 ^ 64

/-- UTF-8 byte length of a string given as its list of characters
(Rust `str::len`). -/
def byteLen (s : List Char) : Nat := (s.map Char.utf8Size).sum

/-- Models the Rust byte-range slice `&s[..k]`: returns the characters
occupying bytes `0..k` when `k` is in bounds and falls on a character
boundary, and `none` (the panic branch of Rust slicing) otherwise. -/
def slicePrefix : List Char → Nat → Option (List Char)
  | _, 0 => some []
  | [], _ + 1 => none
  | c :: rest, k + 1 =>
    if c.utf8Size ≤ k + 1 then
      (slicePrefix rest (k + 1 - c.utf8Size)).map (fun p => c :: p)
    else none

/-- Value of a big-endian list of decimal digit characters, accumulated the
way an integer parser does. -/
def digitsToNat (l : List Char) : Nat :=
  l.foldl (fun a c => a * 10 + (c.toNat - 48)) 0

/-- Drops one optional leading `'+'`, as Rust's unsigned `from_str` does
before reading digits. -/
def stripPlus (s : List Char) : List Char :=
  match s with
  | c :: r => if c = '+' then r else c :: r
  | [] => []

/-- Models Rust's `str::parse::<u64>` (`u64::from_str`): an optional leading
`'+'` followed by one or more ASCII digits whose value fits in `u64`;
anything else (empty digits, a non-digit such as `'-'` or `'.'`, or a value
`≥ 2 ^ 64`) is a parse error. -/
def parseU64 (s : List Char) : Option Nat :=
  let ds := stripPlus s
  if ds = [] then none
  else if ds.all Char.isDigit then
    if digitsToNat ds < u64Size then some (digitsToNat ds) else none
  else none

/-- Fuel-bounded core of the decimal renderer (structural recursion so that
it evaluates by `decide`); `natToDigits` supplies enough fuel. -/
def natToDigitsAux : Nat → Nat → List Char
  | 0, _ => []
  | fuel + 1, n =>
    if n < 10 then [Nat.digitChar n]
    else natToDigitsAux fuel (n / 10) ++ [Nat.digitChar (n % 10)]

/-- Models Rust's decimal rendering `format!("{}", n)` of an unsigned
integer. -/
def natToDigits (n : Nat) : List Char := natToDigitsAux (n + 1) n

/-- The crate's `InvalidDurationError` unit struct. -/
inductive InvalidDurationError : Type
  | mk : InvalidDurationError

instance : DecidableEq InvalidDurationError :=
  fun a b => by cases a; cases b; exact isTrue rfl

instance {ε α : Type} [DecidableEq ε] [DecidableEq α] :
    DecidableEq (Except ε α) := fun a b =>
  match a, b with
  | Except.ok x, Except.ok y =>
    if h : x = y then isTrue (by rw [h])
    else isFalse (by intro hh; cases hh; exact h rfl)
  | Except.ok _, Except.error _ => isFalse (by intro hh; cases hh)
  | Except.error _, Except.ok _ => isFalse (by intro hh; cases hh)
  | Except.error x, Except.error y =>
    if h : x = y then isTrue (by rw [h])
    else isFalse (by intro hh; cases hh; exact h rfl)

/-- `str_to_duration` from `src/lib.rs`: classify by the last character
(`s`/`m`/`h` pick the multiplier, anything else including the empty string
returns `Ok(None)`), byte-slice off the last character, parse the prefix as
`u64` (`Err(InvalidDurationError)` on failure), and multiply.  The result
`Duration` is its `u64` second count; the multiplication is Rust's unchecked
`u64` product, hence the `% 2 ^ 64`.  The outer `Option` is `none` exactly
on the (unreachable) slicing panic. -/
def str_to_duration (s : List Char) :
    Option (Except InvalidDurationError (Option Nat)) :=
  let mult? : Option Nat :=
    match s.getLast? with
    | some c =>
      if c = 's' then some 1
      else if c = 'm' then some 60
      else if c = 'h' then some 3600
      else none
    | none => none
  match mult? with
  | none => some (Except.ok none)
  | some mult =>
    match slicePrefix s (byteLen s - 1) with
    | none => none
    | some pre =>
      match parseU64 pre with
      | none => some (Except.error InvalidDurationError.mk)
      | some value => some (Except.ok (some (mult * value % u64Size)))

/-- `duration_to_str` from `src/lib.rs`: the tier rule.  `seconds` is the
duration's `u64` second count. -/
def duration_to_str (seconds : Nat) : List Char :=
  if seconds ≥ 3600 then natToDigits (seconds / 3600) ++ ['h']
  else if seconds ≥ 60 then natToDigits (seconds / 60) ++ ['m']
  else natToDigits seconds ++ ['s']

/-- The message of `de::Error::custom("invalid duration format")`, produced
for the unrecognized-suffix class. -/
def invalidFormatMsg : List Char := String.toList "invalid duration format"

/-- The `Display` text of `InvalidDurationError`, produced for the
malformed-numeric class. -/
def invalidDurationDisplay : List Char :=
  String.toList "Invalid duration format"

/-- `deserialize` from `src/lib.rs`, after the framework has produced the
string: `Ok(Some(d))` is success, `Ok(None)` becomes the custom error
"invalid duration format", `Err(e)` becomes a custom error carrying `e`'s
display text.  The outer `Option` propagates the (unreachable) panic of
`str_to_duration`. -/
def deserialize (s : List Char) : Option (Except (List Char) Nat) :=
  match str_to_duration s with
  | none => none
  | some (Except.ok (some d)) => some (Except.ok d)
  | some (Except.ok none) => some (Except.error invalidFormatMsg)
  | some (Except.error _) => some (Except.error invalidDurationDisplay)

/-- The multiplier the decoder assigns to each unit suffix (used only to
state claims). -/
def unitMultiplier (c : Char) : Nat :=
  if c = 's' then 1 else if c = 'm' then 60 else if c = 'h' then 3600 else 0

example : str_to_duration (String.toList "30s") =
    some (Except.ok (some 30)) := by decide
example : str_to_duration (String.toList "5m") =
    some (Except.ok (some 300)) := by decide
example : str_to_duration (String.toList "3h") =
    some (Except.ok (some 10800)) := by decide
example : str_to_duration (String.toList "10x") = some (Except.ok none) := by
  decide
example : str_to_duration (String.toList "+5s") =
    some (Except.ok (some 5)) := by decide
example : str_to_duration (String.toList "-5s") =
    some (Except.error InvalidDurationError.mk) := by decide
example : duration_to_str 3661 = String.toList "1h" := by decide
example : duration_to_str 0 = String.toList "0s" := by decide
example : duration_to_str 72000 = String.toList "20h" := by decide

/-! ### Supporting lemmas -/

lemma natToDigitsAux_eq (n : Nat) :
    ∀ f, n < f → natToDigitsAux f n = natToDigits n := by
  induction n using Nat.strong_induction_on with
  | _ n ih =>
    intro f hf
    match f, hf with
    | f' + 1, hf =>
      by_cases h10 : n < 10
      · simp [natToDigitsAux, natToDigits, h10]
      · have hdiv : n / 10 < n := Nat.div_lt_self (by omega) (by omega)
        have h1 : natToDigitsAux f' (n / 10) = natToDigits (n / 10) :=
          ih _ hdiv _ (by omega)
        have h2 : natToDigitsAux n (n / 10) = natToDigits (n / 10) :=
          ih _ hdiv _ (by omega)
        show natToDigitsAux (f' + 1) n = natToDigitsAux (n + 1) n
        simp [natToDigitsAux, h10, h1, h2]

lemma natToDigits_eq (n : Nat) :
    natToDigits n = if n < 10 then [Nat.digitChar n]
      else natToDigits (n / 10) ++ [Nat.digitChar (n % 10)] := by
  by_cases h : n < 10
  · simp [natToDigits, natToDigitsAux, h]
  · have hdiv : n / 10 < n := Nat.div_lt_self (by omega) (by omega)
    rw [if_neg h]
    show natToDigitsAux (n + 1) n = _
    simp [natToDigitsAux, h]
    exact natToDigitsAux_eq (n / 10) n hdiv

lemma digitChar_isDigit (d : Nat) (h : d < 10) :
    (Nat.digitChar d).isDigit = true := by
  interval_cases d <;> decide

lemma digitChar_toNat (d : Nat) (h : d < 10) :
    (Nat.digitChar d).toNat - 48 = d := by
  interval_cases d <;> decide

lemma natToDigits_ne_nil (n : Nat) : natToDigits n ≠ [] := by
  rw [natToDigits_eq]; split <;> simp

lemma natToDigits_all_isDigit (n : Nat) :
    ∀ c ∈ natToDigits n, c.isDigit = true := by
  induction n using Nat.strong_induction_on with
  | _ n ih =>
    intro c hc
    rw [natToDigits_eq] at hc
    split at hc
    · next h =>
      simp at hc; subst hc; exact digitChar_isDigit n h
    · next h =>
      rcases List.mem_append.mp hc with h1 | h2
      · exact ih _ (Nat.div_lt_self (by omega) (by omega)) c h1
      · simp at h2; subst h2
        exact digitChar_isDigit _ (Nat.mod_lt _ (by omega))

lemma digitsToNat_append (l : List Char) (c : Char) :
    digitsToNat (l ++ [c]) = digitsToNat l * 10 + (c.toNat - 48) := by
  simp [digitsToNat, List.foldl_append]

lemma digitsToNat_natToDigits (n : Nat) :
    digitsToNat (natToDigits n) = n := by
  induction n using Nat.strong_induction_on with
  | _ n ih =>
    rw [natToDigits_eq]
    split
    · next h =>
      simp [digitsToNat]
      exact digitChar_toNat n h
    · next h =>
      rw [digitsToNat_append, ih _ (Nat.div_lt_self (by omega) (by omega)),
        digitChar_toNat _ (Nat.mod_lt _ (by omega))]
      omega

lemma stripPlus_natToDigits (n : Nat) :
    stripPlus (natToDigits n) = natToDigits n := by
  match hm : natToDigits n with
  | [] => exact absurd hm (natToDigits_ne_nil n)
  | c :: r =>
    have hc : c.isDigit = true :=
      natToDigits_all_isDigit n c (by rw [hm]; exact List.mem_cons_self c r)
    have hne : ¬ c = '+' := by
      intro he; subst he; exact absurd hc (by decide)
    simp [stripPlus, hne]

lemma parseU64_natToDigits (n : Nat) (h : n < u64Size) :
    parseU64 (natToDigits n) = some n := by
  have h1 := natToDigits_ne_nil n
  have h2 : (natToDigits n).all Char.isDigit = true :=
    List.all_eq_true.mpr (fun c hc => natToDigits_all_isDigit n c hc)
  have h3 := digitsToNat_natToDigits n
  simp [parseU64, stripPlus_natToDigits, h1, h2, h3, h]

lemma byteLen_cons (c : Char) (l : List Char) :
    byteLen (c :: l) = c.utf8Size + byteLen l := by
  simp [byteLen]

lemma byteLen_concat (l : List Char) (u : Char) :
    byteLen (l ++ [u]) = byteLen l + u.utf8Size := by
  simp [byteLen]

lemma slicePrefix_cons_le (c : Char) (rest : List Char) (k : Nat)
    (hk : 0 < k) (h : c.utf8Size ≤ k) :
    slicePrefix (c :: rest) k =
      (slicePrefix rest (k - c.utf8Size)).map (fun p => c :: p) := by
  match k, hk with
  | k' + 1, _ =>
    simp only [slicePrefix]
    rw [if_pos h]

lemma slicePrefix_concat (l : List Char) (u : Char) :
    slicePrefix (l ++ [u]) (byteLen l) = some l := by
  induction l with
  | nil =>
    simp [byteLen, slicePrefix]
  | cons c t ih =>
    have hpos := Char.utf8Size_pos c
    rw [List.cons_append, byteLen_cons,
      slicePrefix_cons_le c (t ++ [u]) _ (by omega) (by omega)]
    have he : c.utf8Size + byteLen t - c.utf8Size = byteLen t := by omega
    rw [he, ih]
    rfl

lemma slicePrefix_concat_unit (l : List Char) (u : Char)
    (hu : u.utf8Size = 1) :
    slicePrefix (l ++ [u]) (byteLen (l ++ [u]) - 1) = some l := by
  have he : byteLen (l ++ [u]) - 1 = byteLen l := by
    rw [byteLen_concat, hu]; omega
  rw [he]
  exact slicePrefix_concat l u

lemma unit_utf8Size (u : Char) (hu : u = 's' ∨ u = 'm' ∨ u = 'h') :
    u.utf8Size = 1 := by
  rcases hu with h | h | h <;> subst h <;> decide

/-- What the decoder does on a string whose last character is a recognized
unit: slice off the unit (always in bounds) and parse the prefix. -/
lemma str_to_duration_concat (l : List Char) (u : Char)
    (hu : u = 's' ∨ u = 'm' ∨ u = 'h') :
    str_to_duration (l ++ [u]) =
      match parseU64 l with
      | none => some (Except.error InvalidDurationError.mk)
      | some v => some (Except.ok (some (unitMultiplier u * v % u64Size))) := by
  have hlast : (l ++ [u]).getLast? = some u := List.getLast?_concat l
  have hslice := slicePrefix_concat_unit l u (unit_utf8Size u hu)
  rcases hu with h | h | h <;> subst h <;>
    cases hp : parseU64 l <;>
    simp [str_to_duration, hlast, hslice, hp, unitMultiplier]

/-- The decoder evaluated on the encoder's output: for any `u64` second
count, decoding the encoded string yields the value rounded down to the
selected unit. -/
lemma str_to_duration_duration_to_str (v : Nat) (hv : v < u64Size) :
    str_to_duration (duration_to_str v) =
      some (Except.ok (some (if v ≥ 3600 then 3600 * (v / 3600)
        else if v ≥ 60 then 60 * (v / 60) else v))) := by
  by_cases h1 : v ≥ 3600
  · have hq : v / 3600 < u64Size := lt_of_le_of_lt (Nat.div_le_self v 3600) hv
    have hle : 3600 * (v / 3600) ≤ v := by
      rw [Nat.mul_comm]; exact Nat.div_mul_le_self v 3600
    unfold duration_to_str
    rw [if_pos h1, str_to_duration_concat _ 'h' (by simp),
      parseU64_natToDigits _ hq, if_pos h1]
    show some (Except.ok (some (unitMultiplier 'h' * (v / 3600) % u64Size))) = _
    have hm : unitMultiplier 'h' = 3600 := by decide
    rw [hm, Nat.mod_eq_of_lt (lt_of_le_of_lt hle hv)]
  · by_cases h2 : v ≥ 60
    · have hq : v / 60 < u64Size := lt_of_le_of_lt (Nat.div_le_self v 60) hv
      have hle : 60 * (v / 60) ≤ v := by
        rw [Nat.mul_comm]; exact Nat.div_mul_le_self v 60
      unfold duration_to_str
      rw [if_neg h1, if_pos h2, str_to_duration_concat _ 'm' (by simp),
        parseU64_natToDigits _ hq, if_neg h1, if_pos h2]
      show some (Except.ok (some (unitMultiplier 'm' * (v / 60) % u64Size))) = _
      have hm : unitMultiplier 'm' = 60 := by decide
      rw [hm, Nat.mod_eq_of_lt (lt_of_le_of_lt hle hv)]
    · unfold duration_to_str
      rw [if_neg h1, if_neg h2, str_to_duration_concat _ 's' (by simp),
        parseU64_natToDigits _ hv, if_neg h1, if_neg h2]
      show some (Except.ok (some (unitMultiplier 's' * v % u64Size))) = _
      have hm : unitMultiplier 's' = 1 := by decide
      rw [hm, Nat.one_mul, Nat.mod_eq_of_lt hv]

/-- The decoder on a string whose last character (if any) is not a
recognized unit: `Ok(None)`, the unrecognized-format class. -/
lemma str_to_duration_not_unit (s : List Char)
    (h : ∀ c, s.getLast? = some c → ¬(c = 's' ∨ c = 'm' ∨ c = 'h')) :
    str_to_duration s = some (Except.ok none) := by
  match hs : s.getLast? with
  | none => simp [str_to_duration, hs]
  | some c =>
    have hc := h c hs
    push_neg at hc
    simp [str_to_duration, hs, hc.1, hc.2.1, hc.2.2]

/-- Every string either splits as a prefix plus a recognized unit suffix, or
the decoder returns `Ok(None)` on it. -/
lemma str_to_duration_cases (s : List Char) :
    (∃ pre u, s = pre ++ [u] ∧ (u = 's' ∨ u = 'm' ∨ u = 'h')) ∨
    str_to_duration s = some (Except.ok none) := by
  match hs : s.getLast? with
  | none =>
    exact Or.inr (str_to_duration_not_unit s (fun c hc => by
      rw [hs] at hc; cases hc))
  | some c =>
    by_cases hc : c = 's' ∨ c = 'm' ∨ c = 'h'
    · have hne : s ≠ [] := by
        intro h; rw [h] at hs; simp at hs
      have h1 : s.dropLast ++ [s.getLast hne] = s :=
        List.dropLast_append_getLast hne
      have h2 : s.getLast hne = c := by
        have h3 := List.getLast?_eq_getLast s hne
        rw [hs] at h3
        exact (Option.some.inj h3).symm
      exact Or.inl ⟨s.dropLast, c, by rw [← h2, h1], hc⟩
    · exact Or.inr (str_to_duration_not_unit s (fun c' hc' => by
        rw [hs] at hc'; cases Option.some.inj hc'; exact hc))

/-- Inversion of the `u64` parser: what a successful parse tells about the
input. -/
lemma parseU64_eq_some (pre : List Char) (v : Nat)
    (h : parseU64 pre = some v) :
    stripPlus pre ≠ [] ∧ (∀ c ∈ stripPlus pre, c.isDigit = true) ∧
    digitsToNat (stripPlus pre) < u64Size ∧
    v = digitsToNat (stripPlus pre) := by
  unfold parseU64 at h
  by_cases h1 : stripPlus pre = []
  · simp [h1] at h
  · by_cases h2 : (stripPlus pre).all Char.isDigit = true
    · by_cases h3 : digitsToNat (stripPlus pre) < u64Size
      · simp [h1, h2, h3] at h
        exact ⟨h1, List.all_eq_true.mp h2, h3, h.symm⟩
      · simp [h1, h2, h3] at h
    · simp [h1, h2] at h

/-! ### The claims -/

/-- C1: Encoder tier rule: for every non-negative whole-second duration `d`,
encode(d) is `"<d/3600>h"` (truncating division) when `d ≥ 3600`, else
`"<d/60>m"` (truncating division) when `d ≥ 60`, else `"<d>s"`. -/
theorem C1_encoder_tier_rule (d : Nat) :
    (d ≥ 3600 → duration_to_str d = natToDigits (d / 3600) ++ ['h']) ∧
    (d < 3600 → d ≥ 60 → duration_to_str d = natToDigits (d / 60) ++ ['m']) ∧
    (d < 60 → duration_to_str d = natToDigits d ++ ['s']) := by
  refine ⟨fun h => ?_, fun h1 h2 => ?_, fun h => ?_⟩
  · unfold duration_to_str
    rw [if_pos h]
  · unfold duration_to_str
    rw [if_neg (by omega), if_pos h2]
  · unfold duration_to_str
    rw [if_neg (by omega), if_neg (by omega)]

/-- Witness for C1 at 7200, 120 and 5 seconds. -/
theorem C1_encoder_tier_rule_witness :
    duration_to_str 7200 = natToDigits (7200 / 3600) ++ ['h'] ∧
    duration_to_str 120 = natToDigits (120 / 60) ++ ['m'] ∧
    duration_to_str 5 = natToDigits 5 ++ ['s'] :=
  ⟨(C1_encoder_tier_rule 7200).1 (by decide),
   (C1_encoder_tier_rule 120).2.1 (by decide) (by decide),
   (C1_encoder_tier_rule 5).2.2 (by decide)⟩

/-- C9: Encoder totality: on every non-negative whole-second duration the
encoder produces a string — a non-empty digit part followed by one unit
letter — and, being a pure function of its argument, has no side effects. -/
theorem C9_encoder_total (d : Nat) :
    ∃ pre u, duration_to_str d = pre ++ [u] ∧ 0 < pre.length ∧
      (u = 's' ∨ u = 'm' ∨ u = 'h') := by
  unfold duration_to_str
  split
  · exact ⟨_, 'h', rfl, List.length_pos.mpr (natToDigits_ne_nil _),
      Or.inr (Or.inr rfl)⟩
  · split
    · exact ⟨_, 'm', rfl, List.length_pos.mpr (natToDigits_ne_nil _),
        Or.inr (Or.inl rfl)⟩
    · exact ⟨_, 's', rfl, List.length_pos.mpr (natToDigits_ne_nil _),
        Or.inl rfl⟩

/-- C10: the byte-range slice in the decoder is reached only under a
single-byte last character (`'s'`, `'m'` or `'h'`), so it is always in
bounds and on a character boundary: the decoder never takes the slicing
panic branch (`none`), on any input, multi-byte characters included. -/
theorem C10_slice_always_valid (s : List Char) :
    ∃ r, str_to_duration s = some r := by
  rcases str_to_duration_cases s with ⟨pre, u, rfl, hu⟩ | h
  · rw [str_to_duration_concat pre u hu]
    cases parseU64 pre
    · exact ⟨_, rfl⟩
    · exact ⟨_, rfl⟩
  · exact ⟨_, h⟩

/-- C3: Conditional round trip: decoding the encoding of `v` returns `v`
whenever `v` is an exact multiple of the unit the tier rule selects for it
(exact hours when `v ≥ 3600`, exact minutes when `60 ≤ v < 3600`, always
when `v < 60`); the general round trip fails, e.g. the encoding of 3661
decodes to 3600. -/
theorem C3_conditional_round_trip (v : Nat) (hv : v < u64Size) :
    (v ≥ 3600 → v % 3600 = 0 →
      str_to_duration (duration_to_str v) = some (Except.ok (some v))) ∧
    (v ≥ 60 → v < 3600 → v % 60 = 0 →
      str_to_duration (duration_to_str v) = some (Except.ok (some v))) ∧
    (v < 60 →
      str_to_duration (duration_to_str v) = some (Except.ok (some v))) ∧
    str_to_duration (duration_to_str 3661) = some (Except.ok (some 3600)) := by
  rw [str_to_duration_duration_to_str v hv]
  refine ⟨fun h1 hm => ?_, fun h1 h2 hm => ?_, fun h => ?_, by decide⟩
  · rw [if_pos h1, Nat.mul_div_cancel' (Nat.dvd_of_mod_eq_zero hm)]
  · rw [if_neg (by omega), if_pos h1,
      Nat.mul_div_cancel' (Nat.dvd_of_mod_eq_zero hm)]
  · rw [if_neg (by omega), if_neg (by omega)]

/-- Witness for C3: the round trip holds at 7200 (exact hours), 120 (exact
minutes) and 59 (seconds). -/
theorem C3_conditional_round_trip_witness :
    str_to_duration (duration_to_str 7200) = some (Except.ok (some 7200)) ∧
    str_to_duration (duration_to_str 120) = some (Except.ok (some 120)) ∧
    str_to_duration (duration_to_str 59) = some (Except.ok (some 59)) :=
  ⟨(C3_conditional_round_trip 7200 (by decide)).1 (by decide) (by decide),
   (C3_conditional_round_trip 120 (by decide)).2.1 (by decide) (by decide)
     (by decide),
   (C3_conditional_round_trip 59 (by decide)).2.2.1 (by decide)⟩

/-- C5: Unrecognized-suffix failure: on every string whose last character is
not `'s'`, `'m'` or `'h'` — the empty string included — the decoder returns
the unrecognized-format class (`Ok(None)`, surfaced by `deserialize` as the
"invalid duration format" error), which is distinct from the
malformed-numeric class; in particular `""`, `"10"` and `"10x"` all fail in
this class. -/
theorem C5_unrecognized_suffix :
    (∀ s : List Char,
      (∀ c, s.getLast? = some c → ¬(c = 's' ∨ c = 'm' ∨ c = 'h')) →
      str_to_duration s = some (Except.ok none) ∧
      deserialize s = some (Except.error invalidFormatMsg)) ∧
    invalidFormatMsg ≠ invalidDurationDisplay ∧
    deserialize [] = some (Except.error invalidFormatMsg) ∧
    deserialize (String.toList "10") = some (Except.error invalidFormatMsg) ∧
    deserialize (String.toList "10x") =
      some (Except.error invalidFormatMsg) := by
  refine ⟨fun s h => ?_, by decide, by decide, by decide, by decide⟩
  have hst := str_to_duration_not_unit s h
  exact ⟨hst, by simp [deserialize, hst]⟩

/-- Witness for C5 at the input "abc". -/
theorem C5_unrecognized_suffix_witness :
    str_to_duration (String.toList "abc") = some (Except.ok none) ∧
    deserialize (String.toList "abc") =
      some (Except.error invalidFormatMsg) :=
  C5_unrecognized_suffix.1 (String.toList "abc") (by decide)

/-- C7 as stated is false at `v = 0`: the encoder emits `"0s"`, not
`"0h"`, for the zero duration. -/
theorem C7_counterexample :
    0 * 3600 < u64Size ∧
    duration_to_str (0 * 3600) ≠ natToDigits 0 ++ ['h'] ∧
    duration_to_str (0 * 3600) = natToDigits 0 ++ ['s'] := by
  decide

/-- C7 (amended): for every integer `v ≥ 1` with `v * 3600 < 2 ^ 64`, the
encoder maps `v * 3600` to the decimal rendering of `v` followed by
`'h'`. -/
theorem C7_encode_exact_hours (v : Nat) (h1 : 1 ≤ v)
    (_hb : v * 3600 < u64Size) :
    duration_to_str (v * 3600) = natToDigits v ++ ['h'] := by
  have h : v * 3600 ≥ 3600 := by
    calc 3600 = 1 * 3600 := by omega
    _ ≤ v * 3600 := Nat.mul_le_mul_right 3600 h1
  unfold duration_to_str
  rw [if_pos h, Nat.mul_div_cancel v (by omega)]

/-- Witness for C7 at `v = 2`. -/
theorem C7_encode_exact_hours_witness :
    duration_to_str (2 * 3600) = natToDigits 2 ++ ['h'] :=
  C7_encode_exact_hours 2 (by decide) (by decide)

/-- C2 as stated is false when the product overflows `u64`: on
`"9000000000000000000h"` the decoder succeeds but returns the product
wrapped modulo `2 ^ 64`, not `value * multiplier`. -/
theorem C2_counterexample :
    str_to_duration (String.toList "9000000000000000000h") ≠
      some (Except.ok (some (9000000000000000000 * 3600))) ∧
    str_to_duration (String.toList "9000000000000000000h") =
      some (Except.ok (some (9000000000000000000 * 3600 % u64Size))) := by
  constructor
  · decide
  · decide

/-- C2 (amended): for every input `pre ++ [u]` with `u` one of `'s'`, `'m'`,
`'h'` and `pre` parsing as a `u64` value `v`, **whenever
`v * multiplier < 2 ^ 64`**, the decoder succeeds and returns
`multiplier * v` seconds (multiplier 1 for `'s'`, 60 for `'m'`, 3600 for
`'h'`); in particular "30s" ↦ 30, "5m" ↦ 300, "3h" ↦ 10800. -/
theorem C2_decoder_value_semantics (pre : List Char) (u : Char) (v : Nat)
    (hu : u = 's' ∨ u = 'm' ∨ u = 'h') (hp : parseU64 pre = some v)
    (hb : unitMultiplier u * v < u64Size) :
    str_to_duration (pre ++ [u]) =
      some (Except.ok (some (unitMultiplier u * v))) := by
  rw [str_to_duration_concat pre u hu, hp]
  simp [Nat.mod_eq_of_lt hb]

/-- Witness for C2 at the three example inputs "30s", "5m" and "3h". -/
theorem C2_decoder_value_semantics_witness :
    str_to_duration (String.toList "30" ++ ['s']) =
      some (Except.ok (some (unitMultiplier 's' * 30))) ∧
    str_to_duration (String.toList "5" ++ ['m']) =
      some (Except.ok (some (unitMultiplier 'm' * 5))) ∧
    str_to_duration (String.toList "3" ++ ['h']) =
      some (Except.ok (some (unitMultiplier 'h' * 3))) :=
  ⟨C2_decoder_value_semantics (String.toList "30") 's' 30 (Or.inl rfl)
      (by decide) (by decide),
   C2_decoder_value_semantics (String.toList "5") 'm' 5 (Or.inr (Or.inl rfl))
      (by decide) (by decide),
   C2_decoder_value_semantics (String.toList "3") 'h' 3
      (Or.inr (Or.inr rfl)) (by decide) (by decide)⟩

/-- C4: the code at the failing input `"6000000000000000000h"`: the parsed
value `6 * 10 ^ 18` times 3600 exceeds `u64`, yet the decoder does not
report a failure — the unchecked `u64` multiplication wraps the product
modulo `2 ^ 64` into a success result (the claim and the spec require a
surfaced failure instead). -/
theorem C4_overflow_not_surfaced :
    str_to_duration (String.toList "6000000000000000000h") =
      some (Except.ok (some (3600 * 6000000000000000000 % u64Size))) ∧
    3600 * 6000000000000000000 % u64Size ≠
      3600 * 6000000000000000000 ∧
    str_to_duration (String.toList "6000000000000000000h") ≠
      some (Except.error InvalidDurationError.mk) := by
  refine ⟨by decide, by decide, by decide⟩

/-- C6 as stated is false at `"+5s"`: its numeric prefix `"+5"` contains
the non-digit character `'+'`, yet the decoder succeeds with 5 instead of
failing with the malformed-numeric class. -/
theorem C6_counterexample :
    (∃ c ∈ String.toList "+5", ¬ c.isDigit = true) ∧
    str_to_duration (String.toList "+5" ++ ['s']) =
      some (Except.ok (some 5)) := by
  refine ⟨⟨'+', by decide, by decide⟩, by decide⟩

/-- C6 (amended): for every input `pre ++ [u]` with `u` one of `'s'`, `'m'`,
`'h'` whose prefix — after stripping the one optional leading `'+'` that
integer parsing accepts — is empty, contains a non-digit character, or has
numeric value outside `u64`, the decoder fails with the malformed-numeric
class (`Err(InvalidDurationError)`); in particular "xs", "-5s" and "5.5s"
fail in this class. -/
theorem C6_malformed_numeric (pre : List Char) (u : Char)
    (hu : u = 's' ∨ u = 'm' ∨ u = 'h')
    (hbad : stripPlus pre = [] ∨ (∃ c ∈ stripPlus pre, ¬ c.isDigit = true) ∨
      u64Size ≤ digitsToNat (stripPlus pre)) :
    str_to_duration (pre ++ [u]) =
      some (Except.error InvalidDurationError.mk) := by
  have hp : parseU64 pre = none := by
    unfold parseU64
    by_cases hnil : stripPlus pre = []
    · simp [hnil]
    · rcases hbad with h | ⟨c, hc, hnd⟩ | h
      · exact absurd h hnil
      · have hall : ¬ (stripPlus pre).all Char.isDigit = true :=
          fun hall => hnd (List.all_eq_true.mp hall c hc)
        simp [hnil, hall]
      · have hlt : ¬ digitsToNat (stripPlus pre) < u64Size := Nat.not_lt.mpr h
        simp [hnil, hlt]
  rw [str_to_duration_concat pre u hu, hp]

/-- Witness for C6: "xs" hits the malformed class through the theorem, and
"-5s", "5.5s" surface the malformed display message through
`deserialize`. -/
theorem C6_malformed_numeric_witness :
    str_to_duration (String.toList "x" ++ ['s']) =
      some (Except.error InvalidDurationError.mk) ∧
    deserialize (String.toList "-5s") =
      some (Except.error invalidDurationDisplay) ∧
    deserialize (String.toList "5.5s") =
      some (Except.error invalidDurationDisplay) :=
  ⟨C6_malformed_numeric (String.toList "x") 's' (Or.inl rfl)
      (Or.inr (Or.inl ⟨'x', by decide, by decide⟩)),
   by decide, by decide⟩

/-- C8 as stated is false at `"+7s"`: the prefix `"+7"` contains the
non-digit character `'+'`, yet the decoder accepts the string (Rust's
`u64` parsing allows one leading `'+'`). -/
theorem C8_counterexample :
    (∃ c ∈ String.toList "+7", ¬ c.isDigit = true) ∧
    str_to_duration (String.toList "+7s") = some (Except.ok (some 7)) := by
  refine ⟨⟨'+', by decide, by decide⟩, by decide⟩

/-- C8 (amended): the decoder succeeds exactly on strings `pre ++ [u]` with
`u` one of `'s'`, `'m'`, `'h'` and `pre` an optional leading `'+'` followed
by one or more base-10 digit characters whose value fits in `u64` — so no
`'-'`, no fractional part, no whitespace, and no non-digit other than the
single optional leading `'+'`. -/
theorem C8_strict_input_format (s : List Char) :
    (∃ d, str_to_duration s = some (Except.ok (some d))) ↔
    (∃ pre u, s = pre ++ [u] ∧ (u = 's' ∨ u = 'm' ∨ u = 'h') ∧
      stripPlus pre ≠ [] ∧ (∀ c ∈ stripPlus pre, c.isDigit = true) ∧
      digitsToNat (stripPlus pre) < u64Size) := by
  constructor
  · rintro ⟨d, hd⟩
    rcases str_to_duration_cases s with ⟨pre, u, rfl, hu⟩ | h
    · rw [str_to_duration_concat pre u hu] at hd
      match hp : parseU64 pre with
      | none => rw [hp] at hd; cases hd
      | some v =>
        obtain ⟨h1, h2, h3, _⟩ := parseU64_eq_some pre v hp
        exact ⟨pre, u, rfl, hu, h1, h2, h3⟩
    · rw [h] at hd; cases hd
  · rintro ⟨pre, u, rfl, hu, hne, hall, hlt⟩
    have hp : parseU64 pre = some (digitsToNat (stripPlus pre)) := by
      simp [parseU64, hne, List.all_eq_true.mpr hall, hlt]
    rw [str_to_duration_concat pre u hu, hp]
    exact ⟨_, rfl⟩

end SerdeDuration
